import Mathlib

/-!
# Verification of the UBL agreements policy engine (crates/policy-engine)

Shallow embedding of the Rust policy engine: the JSON value model
(`serde_json::Value`), canonical serialization (`canonicalization.rs`),
hashing (`hash.rs`), the evaluation context and dotted-path resolver
(`context.rs`), policies and rules (`policy.rs`, `types.rs`), decisions
(`decision.rs`) and the evaluator (`evaluator.rs`).

Modelling conventions:
* Rust `i32`/`u64` values that are only compared (rule priorities) are
  embedded as `Int`; byte values as `Nat` (< 256 by construction).
* `serde_json::Number` stores `PosInt(u64) | NegInt(i64) | Float(f64)`;
  we collapse the integer arms into `Int` and model a finite `f64` by the
  exact rational it denotes (serde_json never stores NaN or infinities,
  so rational equality and ordering agree with `f64` semantics; the
  rounding of `as_f64` on integers above 2^53 is not modelled, no claim
  depends on it).
* `HashMap<String, Value>` fields are embedded as association lists;
  lookup is `List.lookup`.
* The `regex` crate is external to the repository; rule conditions only
  observe it through `Regex::new` (fallible) and `Regex::is_match`, so
  the evaluator is parameterized by a `RegexEngine` providing exactly
  that interface.
* The `sha2` crate is replaced by a full executable SHA-256 over byte
  lists (FIPS 180-4), matching `sha256_hex`'s contract.
* `evaluation_time_us` (wall-clock timing) and decision `metadata`
  (never populated on any evaluation path) are not modelled.
-/

namespace PolicyEngine

/-! ## JSON value model (serde_json::Value) -/

/-- Rust `serde_json::Number`: integer arms collapsed to `Int`, finite `f64`
modelled by the exact rational it denotes. Integer and float numbers are
distinct variants and never compare equal, matching serde_json. -/
inductive JsonNum where
  | int (i : Int)
  | float (q : Rat)
deriving DecidableEq, Repr

/-- Rust `serde_json::Value`. Objects are association lists of entries; the
Rust `Map<String, Value>` (a `BTreeMap`) has unique keys, which theorems
about objects assume via `Nodup` hypotheses on the key list. -/
inductive Json where
  | null
  | bool (b : Bool)
  | num (n : JsonNum)
  | str (s : String)
  | arr (xs : List Json)
  | obj (kvs : List (String × Json))
deriving Repr

/-- Structural equality on numbers (`serde_json` `PartialEq` for `N`):
same variant and equal payload; `Int` vs `Float` is always `false`. -/
def JsonNum.beq : JsonNum → JsonNum → Bool
  | .int a, .int b => a == b
  | .float a, .float b => a == b
  | _, _ => false

mutual
/-- Structural equality (`serde_json::Value: PartialEq`). Objects are
compared entrywise in order, which agrees with `BTreeMap` equality when
the entries are in sorted-key form. -/
def Json.beq : Json → Json → Bool
  | .null, .null => true
  | .bool a, .bool b => a == b
  | .num a, .num b => a.beq b
  | .str a, .str b => a == b
  | .arr a, .arr b => Json.beqList a b
  | .obj a, .obj b => Json.beqEntries a b
  | _, _ => false

def Json.beqList : List Json → List Json → Bool
  | [], [] => true
  | a :: as', b :: bs' => a.beq b && Json.beqList as' bs'
  | _, _ => false

def Json.beqEntries : List (String × Json) → List (String × Json) → Bool
  | [], [] => true
  | (k, v) :: as', (k2, v2) :: bs' => k == k2 && v.beq v2 && Json.beqEntries as' bs'
  | _, _ => false
end

instance : BEq Json := ⟨Json.beq⟩

/-- Rust `Value::as_str`. -/
def Json.as_str : Json → Option String
  | .str s => some s
  | _ => none

/-- Rust `Value::as_array`. -/
def Json.as_array : Json → Option (List Json)
  | .arr xs => some xs
  | _ => none

/-- Rust `Value::as_f64`: succeeds exactly on numbers (exact rational model). -/
def Json.as_f64 : Json → Option Rat
  | .num (.int i) => some (i : Rat)
  | .num (.float q) => some q
  | _ => none

/-! ## Core types (types.rs) -/

inductive TenantType where
  | Platform
  | Customer
deriving DecidableEq, Repr

inductive ResourceType where
  | Tenant | Room | Message | Workspace | Document | Tool | Receipt
deriving DecidableEq, Repr

/-- Rust `ResourceType::as_str`. -/
def ResourceType.as_str : ResourceType → String
  | .Tenant => "tenant"
  | .Room => "room"
  | .Message => "message"
  | .Workspace => "workspace"
  | .Document => "document"
  | .Tool => "tool"
  | .Receipt => "receipt"

inductive ActionType where
  | Read | Write | Create | Delete | Execute | Admin
deriving DecidableEq, Repr

/-- Rust `ActionType::as_str`. -/
def ActionType.as_str : ActionType → String
  | .Read => "read"
  | .Write => "write"
  | .Create => "create"
  | .Delete => "delete"
  | .Execute => "execute"
  | .Admin => "admin"

inductive Role where
  | Guest | Member | Admin | Owner
deriving DecidableEq, Repr

/-- Rust `Role::as_str`. -/
def Role.as_str : Role → String
  | .Guest => "guest"
  | .Member => "member"
  | .Admin => "admin"
  | .Owner => "owner"

structure Identity where
  user_id : String
  email : String
  email_domain : String
  groups : List String
  is_service : Bool
deriving Repr

structure Tenant where
  tenant_id : String
  tenant_type : TenantType
deriving Repr

structure Resource where
  resource_type : ResourceType
  resource_id : String
  owner_id : Option String
  agreement_id : Option String
deriving Repr

structure Action where
  action_type : ActionType
  action_name : String
deriving Repr

/-- Rust `Environment` (types.rs); `attributes` is a `HashMap` embedded as an
association list. -/
structure Environment where
  timestamp : Option String := none
  request_id : Option String := none
  ip_address : Option String := none
  user_agent : Option String := none
  attributes : List (String × Json) := []
deriving Repr

inductive ConditionOperator where
  | Equals | NotEquals | Contains | NotContains | StartsWith | EndsWith
  | Matches | In | NotIn
  | GreaterThan | LessThan | GreaterThanOrEqual | LessThanOrEqual
  | Exists | NotExists
deriving DecidableEq, Repr

structure Condition where
  field : String
  operator : ConditionOperator
  value : Json
deriving Repr

inductive Effect where
  | Allow
  | Deny
deriving DecidableEq, Repr

/-- Rust `Rule` (types.rs); `priority` is `i32`, embedded as `Int` (it is
only ever compared, never arithmetically combined). -/
structure Rule where
  id : String
  description : Option String := none
  effect : Effect
  conditions : List Condition
  priority : Int := 0
deriving Repr

inductive CombiningAlgorithm where
  | FirstApplicable
  | DenyOverrides
  | AllowOverrides
  | UnanimousAllow
  | UnanimousDeny
deriving DecidableEq, Repr

/-- Rust `Policy` (policy.rs). `metadata` is a `HashMap` embedded as an
association list. -/
structure Policy where
  id : String
  version : String
  name : String
  description : Option String := none
  rules : List Rule
  combining_algorithm : CombiningAlgorithm := .DenyOverrides
  default_effect : Effect := .Deny
  metadata : List (String × Json) := []
deriving Repr

/-! ## Errors (error.rs) -/

inductive PolicyError where
  | ParseError (msg : String)
  | ValidationError (msg : String)
  | MissingField (msg : String)
  | InvalidFieldValue (field : String) (message : String)
  | ConditionError (msg : String)
  | RuleError (msg : String)
  | NotFound (msg : String)
  | SerializationError (msg : String)
  | InternalError (msg : String)
  | HashError (msg : String)
  | CanonicalizationError (msg : String)
deriving DecidableEq, Repr

/-! ## Decisions (decision.rs) -/

inductive Decision where
  | Allow
  | Deny
deriving DecidableEq, Repr

/-- Rust `From<Effect> for Decision`. -/
def Decision.ofEffect : Effect → Decision
  | .Allow => .Allow
  | .Deny => .Deny

/-- Rust `PolicyDecision` (decision.rs). The wall-clock `evaluation_time_us`
field and the `metadata` map (never populated on any evaluation path)
are not modelled. -/
structure PolicyDecision where
  decision : Decision
  reason : String
  rule_id : Option String
  policy_id : Option String
  is_default : Bool
deriving DecidableEq, Repr

/-- Rust `PolicyDecision::allow`. -/
def PolicyDecision.allow (reason : String) : PolicyDecision :=
  ⟨.Allow, reason, none, none, false⟩

/-- Rust `PolicyDecision::deny`. -/
def PolicyDecision.deny (reason : String) : PolicyDecision :=
  ⟨.Deny, reason, none, none, false⟩

/-- Rust `PolicyDecision::default_allow`. -/
def PolicyDecision.default_allow : PolicyDecision :=
  ⟨.Allow, "No matching rules - default allow", none, none, true⟩

/-- Rust `PolicyDecision::default_deny`. -/
def PolicyDecision.default_deny : PolicyDecision :=
  ⟨.Deny, "No matching rules - default deny", none, none, true⟩

/-- Rust `PolicyDecision::with_rule_id`. -/
def PolicyDecision.with_rule_id (d : PolicyDecision) (rule_id : String) : PolicyDecision :=
  { d with rule_id := some rule_id }

/-- Rust `PolicyDecision::with_policy_id`. -/
def PolicyDecision.with_policy_id (d : PolicyDecision) (policy_id : String) : PolicyDecision :=
  { d with policy_id := some policy_id }

/-- Rust `PolicyDecision::is_allowed`. -/
def PolicyDecision.is_allowed (d : PolicyDecision) : Bool :=
  d.decision == .Allow

/-- Rust `PolicyDecision::is_denied`. -/
def PolicyDecision.is_denied (d : PolicyDecision) : Bool :=
  d.decision == .Deny

/-! ## Evaluation context and dotted-path resolver (context.rs) -/

/-- Rust `EvaluationContext` (context.rs); `attributes` is a `HashMap`
embedded as an association list. -/
structure EvaluationContext where
  identity : Identity
  tenant : Tenant
  resource : Resource
  action : Action
  role : Option Role := none
  environment : Environment := {}
  attributes : List (String × Json) := []
deriving Repr

/-- Rust `serde_json::to_value` of an `Option<String>` field: `None`
serializes to `null` (no skip attribute on any field). -/
def optStrJson : Option String → Json
  | some s => .str s
  | none => .null

/-- Rust `serde_json::to_value(&self.identity)`: a JSON object. Entries are
listed in sorted key order, the iteration order of the `BTreeMap`
backing `serde_json::Map`. -/
def Identity.toJson (i : Identity) : Json :=
  .obj [("email", .str i.email), ("email_domain", .str i.email_domain),
        ("groups", .arr (i.groups.map Json.str)), ("is_service", .bool i.is_service),
        ("user_id", .str i.user_id)]

/-- Rust `serde_json::to_value(&self.tenant)`; `TenantType` serializes as its
lowercase tag. -/
def Tenant.toJson (t : Tenant) : Json :=
  .obj [("tenant_id", .str t.tenant_id),
        ("tenant_type", .str (match t.tenant_type with
          | .Platform => "platform" | .Customer => "customer"))]

/-- Rust `serde_json::to_value(&self.resource)`. -/
def Resource.toJson (r : Resource) : Json :=
  .obj [("agreement_id", optStrJson r.agreement_id), ("owner_id", optStrJson r.owner_id),
        ("resource_id", .str r.resource_id), ("resource_type", .str r.resource_type.as_str)]

/-- Rust `serde_json::to_value(&self.action)`. -/
def Action.toJson (a : Action) : Json :=
  .obj [("action_name", .str a.action_name), ("action_type", .str a.action_type.as_str)]

/-- Rust `serde_json::to_value(&self.environment)`. -/
def Environment.toJson (e : Environment) : Json :=
  .obj [("attributes", .obj e.attributes), ("ip_address", optStrJson e.ip_address),
        ("request_id", optStrJson e.request_id), ("timestamp", optStrJson e.timestamp),
        ("user_agent", optStrJson e.user_agent)]

/-- Rust `EvaluationContext::get_identity_field`: receives `parts[1..]`.
With no further segments the whole scope is serialized; otherwise the
first remaining segment selects a field and anything beyond it is
ignored (the Rust code only inspects `parts[0]`). -/
def EvaluationContext.get_identity_field (ctx : EvaluationContext) :
    List String → Option Json
  | [] => some ctx.identity.toJson
  | p :: _ =>
    if p = "user_id" then some (.str ctx.identity.user_id)
    else if p = "email" then some (.str ctx.identity.email)
    else if p = "email_domain" then some (.str ctx.identity.email_domain)
    else if p = "groups" then some (.arr (ctx.identity.groups.map Json.str))
    else if p = "is_service" then some (.bool ctx.identity.is_service)
    else none

/-- Rust `EvaluationContext::get_tenant_field`. -/
def EvaluationContext.get_tenant_field (ctx : EvaluationContext) :
    List String → Option Json
  | [] => some ctx.tenant.toJson
  | p :: _ =>
    if p = "tenant_id" then some (.str ctx.tenant.tenant_id)
    else if p = "tenant_type" then some (.str (match ctx.tenant.tenant_type with
      | .Platform => "platform" | .Customer => "customer"))
    else none

/-- Rust `EvaluationContext::get_resource_field`; `owner_id`/`agreement_id`
resolve only when set (`Option::map` in the Rust code). -/
def EvaluationContext.get_resource_field (ctx : EvaluationContext) :
    List String → Option Json
  | [] => some ctx.resource.toJson
  | p :: _ =>
    if p = "resource_type" then some (.str ctx.resource.resource_type.as_str)
    else if p = "resource_id" then some (.str ctx.resource.resource_id)
    else if p = "owner_id" then ctx.resource.owner_id.map Json.str
    else if p = "agreement_id" then ctx.resource.agreement_id.map Json.str
    else none

/-- Rust `EvaluationContext::get_action_field`. -/
def EvaluationContext.get_action_field (ctx : EvaluationContext) :
    List String → Option Json
  | [] => some ctx.action.toJson
  | p :: _ =>
    if p = "action_type" then some (.str ctx.action.action_type.as_str)
    else if p = "action_name" then some (.str ctx.action.action_name)
    else none

/-- Rust `EvaluationContext::get_environment_field`; the optional fields
resolve only when set, and `attributes.<key>` looks up exactly the next
segment (`parts[1]`). -/
def EvaluationContext.get_environment_field (ctx : EvaluationContext) :
    List String → Option Json
  | [] => some ctx.environment.toJson
  | p :: rest =>
    if p = "timestamp" then ctx.environment.timestamp.map Json.str
    else if p = "request_id" then ctx.environment.request_id.map Json.str
    else if p = "ip_address" then ctx.environment.ip_address.map Json.str
    else if p = "user_agent" then ctx.environment.user_agent.map Json.str
    else if p = "attributes" then
      match rest with
      | k :: _ => ctx.environment.attributes.lookup k
      | [] => some (.obj ctx.environment.attributes)
    else none

/-- The body of `EvaluationContext::get_value` after
`field_path.split('.')`: dispatch on `parts[0]`. `String::split` never
yields an empty list, so the `parts.is_empty()` arm is unreachable; it
is kept for faithfulness. -/
def EvaluationContext.resolveParts (ctx : EvaluationContext) :
    List String → Option Json
  | [] => none
  | p :: rest =>
    if p = "identity" then ctx.get_identity_field rest
    else if p = "tenant" then ctx.get_tenant_field rest
    else if p = "resource" then ctx.get_resource_field rest
    else if p = "action" then ctx.get_action_field rest
    else if p = "role" then ctx.role.map (fun r => .str r.as_str)
    else if p = "environment" then ctx.get_environment_field rest
    else if p = "attributes" then
      match rest with
      | k :: _ => ctx.attributes.lookup k
      | [] => some (.obj ctx.attributes)
    else none

/-- Rust `field_path.split('.')` (accumulator holds the current segment in
reverse): splitting on every `.`, an empty path yields `[""]`, so the
segment list is never empty. -/
def splitDotAux : List Char → List Char → List String
  | [], acc => [String.mk acc.reverse]
  | c :: rest, acc =>
    if c = '.' then String.mk acc.reverse :: splitDotAux rest []
    else splitDotAux rest (c :: acc)

/-- Rust `field_path.split('.').collect::<Vec<_>>()`. -/
def splitDot (s : String) : List String := splitDotAux s.data []

/-- Rust `EvaluationContext::get_value`: split the dotted path and resolve. -/
def EvaluationContext.get_value (ctx : EvaluationContext) (field_path : String) :
    Option Json :=
  ctx.resolveParts (splitDot field_path)

/-- Rust `EvaluationContext::validate`. -/
def EvaluationContext.validate (ctx : EvaluationContext) : Except PolicyError Unit :=
  if ctx.identity.user_id = "" then .error (.MissingField "identity.user_id")
  else if ctx.tenant.tenant_id = "" then .error (.MissingField "tenant.tenant_id")
  else if ctx.resource.resource_id = "" then .error (.MissingField "resource.resource_id")
  else .ok ()

/-! ## Rule ordering (policy.rs) -/

/-- The comparator of `Policy::sorted_rules`:
`rules.sort_by(|a, b| b.priority.cmp(&a.priority))`, i.e. descending
priority. -/
def rulePriorityGe (a b : Rule) : Prop := b.priority ≤ a.priority

instance : DecidableRel rulePriorityGe :=
  fun a b => inferInstanceAs (Decidable (b.priority ≤ a.priority))

instance : IsTotal Rule rulePriorityGe :=
  ⟨fun a b => le_total b.priority a.priority⟩

instance : IsTrans Rule rulePriorityGe :=
  ⟨fun _ _ _ h1 h2 => le_trans h2 h1⟩

/-- Rust `Policy::sorted_rules`: Rust `sort_by` is a stable sort, embedded as
a stable insertion sort with the same comparator (a stable sort under a
fixed total preorder is unique, so any stable sort is a faithful
model). -/
def Policy.sorted_rules (p : Policy) : List Rule :=
  p.rules.insertionSort rulePriorityGe

/-! ## The evaluator (evaluator.rs) -/

/-- The interface through which the evaluator observes the external
`regex` crate: `Regex::new` (returning `Err` on an invalid pattern,
whose display string feeds `ConditionError`) composed with
`Regex::is_match`. -/
structure RegexEngine where
  compile : String → Except String (String → Bool)

/-- Rust `PolicyEvaluator::compare_numbers`: both sides must be numbers
(`as_f64`), otherwise a `ConditionError`. -/
def compare_numbers (left right : Json) (cmp : Rat → Rat → Bool) :
    Except PolicyError Bool :=
  match left.as_f64 with
  | none => .error (.ConditionError "Left value is not a number")
  | some l =>
    match right.as_f64 with
    | none => .error (.ConditionError "Right value is not a number")
    | some r => .ok (cmp l r)

/-- The `Contains` arm of `evaluate_operator`: string containment when
both sides are strings, element search when the left is an array,
otherwise `false`. (The Rust `NotContains` arm recurses into the
`Contains` arm of the same function; factoring the shared body out
keeps the definition non-recursive.) -/
def contains_op (left right : Json) : Bool :=
  match left.as_str, right.as_str with
  | some l, some r => l.containsSubstr r
  | _, _ =>
    match left.as_array with
    | some xs => xs.contains right
    | none => false

/-- The `In` arm of `evaluate_operator`: membership of the left value
in the right array, `false` when the right side is not an array. -/
def in_op (left right : Json) : Bool :=
  match right.as_array with
  | some xs => xs.contains left
  | none => false

/-- Rust `PolicyEvaluator::evaluate_operator`. -/
def evaluate_operator (re : RegexEngine) (op : ConditionOperator)
    (left right : Json) : Except PolicyError Bool :=
  match op with
  | .Equals => .ok (left == right)
  | .NotEquals => .ok (!(left == right))
  | .Contains => .ok (contains_op left right)
  | .NotContains => .ok (!contains_op left right)
  | .StartsWith =>
    match left.as_str, right.as_str with
    | some l, some r => .ok (l.startsWith r)
    | _, _ => .ok false
  | .EndsWith =>
    match left.as_str, right.as_str with
    | some l, some r => .ok (l.endsWith r)
    | _, _ => .ok false
  | .Matches =>
    match left.as_str, right.as_str with
    | some l, some pat =>
      match re.compile pat with
      | .ok m => .ok (m l)
      | .error e => .error (.ConditionError ("Invalid regex: " ++ e))
    | _, _ => .ok false
  | .In => .ok (in_op left right)
  | .NotIn => .ok (!in_op left right)
  | .GreaterThan => compare_numbers left right (fun l r => r < l)
  | .LessThan => compare_numbers left right (fun l r => l < r)
  | .GreaterThanOrEqual => compare_numbers left right (fun l r => r ≤ l)
  | .LessThanOrEqual => compare_numbers left right (fun l r => l ≤ r)
  | .Exists => .ok false
  | .NotExists => .ok false

/-- Rust `PolicyEvaluator::evaluate_condition`: `Exists`/`NotExists` test
presence; every other operator requires the field to resolve, else
`ConditionError`. -/
def evaluate_condition (re : RegexEngine) (c : Condition)
    (ctx : EvaluationContext) : Except PolicyError Bool :=
  let field_value := ctx.get_value c.field
  match c.operator with
  | .Exists => .ok field_value.isSome
  | .NotExists => .ok field_value.isNone
  | op =>
    match field_value with
    | some v => evaluate_operator re op v c.value
    | none => .error (.ConditionError ("Field '" ++ c.field ++ "' not found"))

/-- The loop of `PolicyEvaluator::evaluate_rule`: all conditions must
hold; the first `false` short-circuits, the first error propagates. -/
def conditions_hold (re : RegexEngine) (ctx : EvaluationContext) :
    List Condition → Except PolicyError Bool
  | [] => .ok true
  | c :: cs => do
    let b ← evaluate_condition re c ctx
    if b then conditions_hold re ctx cs else pure false

/-- Rust `PolicyEvaluator::evaluate_rule`. -/
def evaluate_rule (re : RegexEngine) (rule : Rule)
    (ctx : EvaluationContext) : Except PolicyError Bool :=
  conditions_hold re ctx rule.conditions

/-- The matching loop of `PolicyEvaluator::evaluate_policy`: collect the
rules (in the given order) whose conditions all hold. -/
def matchedRules (re : RegexEngine) (ctx : EvaluationContext) :
    List Rule → Except PolicyError (List Rule)
  | [] => .ok []
  | r :: rs => do
    let b ← evaluate_rule re r ctx
    let rest ← matchedRules re ctx rs
    pure (if b then r :: rest else rest)

/-- Rust `PolicyEvaluator::evaluate_policy`: match rules in sorted order,
fall back to the default effect when nothing matched, otherwise apply
the policy's combining algorithm. The Rust `matched_decisions` pairs
each rule with its effect; the pair is redundant (`rule.effect`) and
dropped here. -/
def evaluate_policy (re : RegexEngine) (p : Policy)
    (ctx : EvaluationContext) : Except PolicyError PolicyDecision := do
  let matched ← matchedRules re ctx p.sorted_rules
  match matched with
  | [] =>
    pure ((if p.default_effect = Effect.Allow then PolicyDecision.default_allow
           else PolicyDecision.default_deny).with_policy_id p.id)
  | m0 :: _ =>
    match p.combining_algorithm with
    | .FirstApplicable =>
      let dec := if m0.effect = Effect.Allow
        then PolicyDecision.allow ("Rule '" ++ m0.id ++ "' matched")
        else PolicyDecision.deny ("Rule '" ++ m0.id ++ "' matched")
      pure ((dec.with_rule_id m0.id).with_policy_id p.id)
    | .DenyOverrides =>
      match matched.find? (fun r => r.effect == Effect.Deny) with
      | some r =>
        pure (((PolicyDecision.deny ("Rule '" ++ r.id ++ "' denies")).with_rule_id
          r.id).with_policy_id p.id)
      | none =>
        pure (((PolicyDecision.allow "All matching rules allow").with_rule_id
          m0.id).with_policy_id p.id)
    | .AllowOverrides =>
      match matched.find? (fun r => r.effect == Effect.Allow) with
      | some r =>
        pure (((PolicyDecision.allow ("Rule '" ++ r.id ++ "' allows")).with_rule_id
          r.id).with_policy_id p.id)
      | none =>
        pure (((PolicyDecision.deny "All matching rules deny").with_rule_id
          m0.id).with_policy_id p.id)
    | .UnanimousAllow =>
      match matched.find? (fun r => r.effect == Effect.Deny) with
      | some r =>
        pure (((PolicyDecision.deny
          ("Rule '" ++ r.id ++ "' denies (unanimous allow required)")).with_rule_id
          r.id).with_policy_id p.id)
      | none =>
        pure (((PolicyDecision.allow "All rules unanimously allow").with_rule_id
          m0.id).with_policy_id p.id)
    | .UnanimousDeny =>
      match matched.find? (fun r => r.effect == Effect.Allow) with
      | some r =>
        pure (((PolicyDecision.allow
          ("Rule '" ++ r.id ++ "' allows (unanimous deny required)")).with_rule_id
          r.id).with_policy_id p.id)
      | none =>
        pure (((PolicyDecision.deny "All rules unanimously deny").with_rule_id
          m0.id).with_policy_id p.id)

/-- Rust `PolicyEvaluator::combine_decisions`. -/
def combine_decisions (decisions : List PolicyDecision)
    (algorithm : CombiningAlgorithm) : PolicyDecision :=
  match decisions with
  | [] => PolicyDecision.default_deny
  | d0 :: _ =>
    match algorithm with
    | .FirstApplicable => d0
    | .DenyOverrides =>
      match decisions.find? (fun d => d.is_denied) with
      | some d => d
      | none => (decisions.find? (fun d => d.is_allowed)).getD PolicyDecision.default_deny
    | .AllowOverrides =>
      match decisions.find? (fun d => d.is_allowed) with
      | some d => d
      | none => (decisions.find? (fun d => d.is_denied)).getD PolicyDecision.default_deny
    | .UnanimousAllow =>
      if decisions.all (fun d => d.is_allowed) then d0
      else (decisions.find? (fun d => d.is_denied)).getD PolicyDecision.default_deny
    | .UnanimousDeny =>
      if decisions.all (fun d => d.is_denied) then d0
      else (decisions.find? (fun d => d.is_allowed)).getD PolicyDecision.default_allow

/-- Rust `PolicyEvaluator`: holds the loaded policies in insertion order. -/
structure PolicyEvaluator where
  policies : List Policy

/-- Rust `PolicyEvaluator::evaluate`: validate the context; with no policies
deny by default; otherwise evaluate every policy in insertion order and
combine with the fixed `DenyOverrides` algorithm. (The
`evaluation_time_us` stamping is wall-clock behaviour, not modelled.) -/
def PolicyEvaluator.evaluate (ev : PolicyEvaluator) (re : RegexEngine)
    (ctx : EvaluationContext) : Except PolicyError PolicyDecision := do
  ctx.validate
  if ev.policies.isEmpty then
    pure PolicyDecision.default_deny
  else do
    let decisions ← ev.policies.mapM (fun p => evaluate_policy re p ctx)
    pure (combine_decisions decisions CombiningAlgorithm.DenyOverrides)

/-! ## UTF-8 encoding

`str::as_bytes` and `char::encode_utf8`: the UTF-8 byte sequence of a
character, used both by the hash functions (hashing a string hashes its
UTF-8 encoding) and by the canonicalizer's byte output. -/

/-- Rust `char::encode_utf8` (RFC 3629): 1-4 bytes per scalar value. -/
def utf8Encode (c : Char) : List Nat :=
  let v := c.toNat
  if v < 0x80 then [v]
  else if v < 0x800 then [0xc0 + v / 0x40, 0x80 + v % 0x40]
  else if v < 0x10000 then
    [0xe0 + v / 0x1000, 0x80 + v / 0x40 % 0x40, 0x80 + v % 0x40]
  else
    [0xf0 + v / 0x40000, 0x80 + v / 0x1000 % 0x40, 0x80 + v / 0x40 % 0x40,
     0x80 + v % 0x40]

/-- Rust `str::as_bytes`: the UTF-8 encoding of a string. -/
def strBytes (s : String) : List Nat :=
  s.data.flatMap utf8Encode

/-! ## SHA-256 and content identifiers (hash.rs)

The `sha2` crate is external; this is a direct executable FIPS 180-4
SHA-256 over byte lists, using `Nat` with explicit reduction mod 2^32. -/

/-- Truncation to a 32-bit word. -/
def w32 (n : Nat) : Nat := n % 4294967296

/-- Right rotation within a 32-bit word. -/
def rotr32 (n x : Nat) : Nat := w32 ((x >>> n) ||| (x <<< (32 - n)))

def sha_ch (x y z : Nat) : Nat := (x &&& y) ^^^ ((x ^^^ 0xffffffff) &&& z)

def sha_maj (x y z : Nat) : Nat := (x &&& y) ^^^ (x &&& z) ^^^ (y &&& z)

def bsig0 (x : Nat) : Nat := rotr32 2 x ^^^ rotr32 13 x ^^^ rotr32 22 x

def bsig1 (x : Nat) : Nat := rotr32 6 x ^^^ rotr32 11 x ^^^ rotr32 25 x

def ssig0 (x : Nat) : Nat := rotr32 7 x ^^^ rotr32 18 x ^^^ (x >>> 3)

def ssig1 (x : Nat) : Nat := rotr32 17 x ^^^ rotr32 19 x ^^^ (x >>> 10)

/-- SHA-256 working state: eight 32-bit words. -/
structure Sha256State where
  a : Nat
  b : Nat
  c : Nat
  d : Nat
  e : Nat
  f : Nat
  g : Nat
  h : Nat

/-- FIPS 180-4 initial hash value (decimal). -/
def sha256Init : Sha256State :=
  ⟨1779033703, 3144134277, 1013904242, 2773480762,
   1359893119, 2600822924, 528734635, 1541459225⟩

/-- FIPS 180-4 round constants (decimal). -/
def sha256K : List Nat :=
  [   1116352408, 1899447441, 3049323471, 3921009573, 961987163,
   1508970993, 2453635748, 2870763221, 3624381080, 310598401,
   607225278, 1426881987, 1925078388, 2162078206, 2614888103,
   3248222580, 3835390401, 4022224774, 264347078, 604807628,
   770255983, 1249150122, 1555081692, 1996064986, 2554220882,
   2821834349, 2952996808, 3210313671, 3336571891, 3584528711,
   113926993, 338241895, 666307205, 773529912, 1294757372,
   1396182291, 1695183700, 1986661051, 2177026350, 2456956037,
   2730485921, 2820302411, 3259730800, 3345764771, 3516065817,
   3600352804, 4094571909, 275423344, 430227734, 506948616,
   659060556, 883997877, 958139571, 1322822218, 1537002063,
   1747873779, 1955562222, 2024104815, 2227730452, 2361852424,
   2428436474, 2756734187, 3204031479, 3329325298]

/-- Big-endian 32-bit words from bytes (4 at a time). -/
def bytesToWords : List Nat → List Nat
  | b0 :: b1 :: b2 :: b3 :: rest =>
    (((b0 * 256 + b1) * 256 + b2) * 256 + b3) :: bytesToWords rest
  | _ => []

/-- Extend a message schedule by `n` further words. -/
def extendSchedule (w : List Nat) : Nat → List Nat
  | 0 => w
  | n + 1 =>
    extendSchedule
      (w ++ [w32 (ssig1 (w.getD (w.length - 2) 0) + w.getD (w.length - 7) 0 +
                  ssig0 (w.getD (w.length - 15) 0) + w.getD (w.length - 16) 0)]) n

/-- One compression round. -/
def sha256Round (st : Sha256State) (kw : Nat × Nat) : Sha256State :=
  let t1 := w32 (st.h + bsig1 st.e + sha_ch st.e st.f st.g + kw.1 + kw.2)
  let t2 := w32 (bsig0 st.a + sha_maj st.a st.b st.c)
  ⟨w32 (t1 + t2), st.a, st.b, st.c, w32 (st.d + t1), st.e, st.f, st.g⟩

/-- Compress one 64-byte chunk into the running state. -/
def sha256Compress (st : Sha256State) (chunk : List Nat) : Sha256State :=
  let w := extendSchedule (bytesToWords chunk) 48
  let r := (sha256K.zip w).foldl sha256Round st
  ⟨w32 (st.a + r.a), w32 (st.b + r.b), w32 (st.c + r.c), w32 (st.d + r.d),
   w32 (st.e + r.e), w32 (st.f + r.f), w32 (st.g + r.g), w32 (st.h + r.h)⟩

/-- Big-endian 8-byte encoding of a 64-bit value. -/
def be64 (n : Nat) : List Nat :=
  [n / 2 ^ 56 % 256, n / 2 ^ 48 % 256, n / 2 ^ 40 % 256, n / 2 ^ 32 % 256,
   n / 2 ^ 24 % 256, n / 2 ^ 16 % 256, n / 2 ^ 8 % 256, n % 256]

/-- SHA-256 padding: `0x80`, zeros to 56 mod 64, then the bit length. -/
def sha256Pad (msg : List Nat) : List Nat :=
  let len := msg.length
  let zeros := (64 + 56 - (len + 1) % 64) % 64
  msg ++ 0x80 :: List.replicate zeros 0 ++ be64 (8 * len % 2 ^ 64)

/-- Split a byte list into 64-byte chunks. -/
def chunks64 (l : List Nat) : List (List Nat) :=
  if l = [] then [] else l.take 64 :: chunks64 (l.drop 64)
termination_by l.length
decreasing_by
  simp [List.length_drop]
  cases l with
  | nil => simp_all
  | cons x xs => simp

/-- Big-endian bytes of one 32-bit word. -/
def word32Bytes (w : Nat) : List Nat :=
  [w / 2 ^ 24 % 256, w / 2 ^ 16 % 256, w / 2 ^ 8 % 256, w % 256]

/-- The 32-byte digest of a final state. -/
def sha256StateBytes (st : Sha256State) : List Nat :=
  [st.a, st.b, st.c, st.d, st.e, st.f, st.g, st.h].flatMap word32Bytes

/-- SHA-256 digest (32 bytes) of a byte list. -/
def sha256 (msg : List Nat) : List Nat :=
  sha256StateBytes ((chunks64 (sha256Pad msg)).foldl sha256Compress sha256Init)

/-- The lowercase hexadecimal digits, indexed 0-15. -/
def hexDigitChar (d : Nat) : Char := "0123456789abcdef".data.getD d '0'

/-- Two lowercase hex characters of one byte (`hex::encode`). -/
def byteHex (b : Nat) : List Char := [hexDigitChar (b / 16 % 16), hexDigitChar (b % 16)]

/-- Rust `hex::encode`: lowercase hex of a byte list. -/
def hexEncode (bs : List Nat) : String := String.mk (bs.flatMap byteHex)

/-- Is `c` a lowercase hexadecimal digit (`0`-`9` or `a`-`f`)? -/
def isLowerHexChar (c : Char) : Bool :=
  (48 ≤ c.toNat && c.toNat ≤ 57) || (97 ≤ c.toNat && c.toNat ≤ 102)

/-- Rust `sha256_hex` (hash.rs): lowercase hex of the 32-byte digest. -/
def sha256_hex (data : List Nat) : String := hexEncode (sha256 data)

/-- Rust `sha256_str` (hash.rs): `sha256_hex` of the string's UTF-8 bytes. -/
def sha256_str (s : String) : String := sha256_hex (strBytes s)

/-- Rust `compute_cid` (hash.rs). -/
def compute_cid (data : String) : String := "c:" ++ sha256_str data

/-- Rust `compute_head_hash` (hash.rs). -/
def compute_head_hash (prev_hash cid : String) : String :=
  "h:" ++ sha256_str (prev_hash ++ ":" ++ cid)

/-- Rust `GENESIS_HASH` (hash.rs). -/
def GENESIS_HASH : String := "h:genesis"

/-- Rust `compute_body_hash` (hash.rs). -/
def compute_body_hash (body : String) : String := "b:" ++ sha256_str body

/-- Rust `verify_chain_link` (hash.rs). -/
def verify_chain_link (prev_hash cid expected_hash : String) : Bool :=
  compute_head_hash prev_hash cid == expected_hash

/-! ## Canonical JSON serialization (canonicalization.rs) -/

/-- Rendering of `serde_json::Number` by `write!(writer, "{}", n)`:
integers print in decimal; a float prints via ryu in its shortest
round-trippable decimal form, modelled here abstractly by the rational's
canonical rendering (no claim evaluates a float rendering concretely;
only determinism of the rendering matters). -/
def JsonNum.render : JsonNum → String
  | .int i => toString i
  | .float q => toString q

/-- First normalization pass: `s.replace("\r\n", "\n")` — leftmost,
non-overlapping. -/
def replaceCrLf : List Char → List Char
  | [] => []
  | [c] => [c]
  | c1 :: c2 :: rest =>
    if c1 = '\r' ∧ c2 = '\n' then '\n' :: replaceCrLf rest
    else c1 :: replaceCrLf (c2 :: rest)

/-- Second normalization pass: `.replace('\r', "\n")`. -/
def replaceCr (l : List Char) : List Char :=
  l.map (fun c => if c = '\r' then '\n' else c)

/-- Line-ending normalization of string values: every `CR LF` becomes
`LF`, then every remaining `CR` becomes `LF`. -/
def normalizeNewlines (l : List Char) : List Char :=
  replaceCr (replaceCrLf l)

/-- Rust `char::is_control`: Unicode category Cc, i.e. U+0000-U+001F
and U+007F-U+009F. -/
def isCcControl (c : Char) : Bool :=
  c.toNat < 0x20 || (0x7f ≤ c.toNat && c.toNat ≤ 0x9f)

/-- Rust `\u{:04x}`: four lowercase hex digits (all inputs here are scalar
values of Cc controls, hence < 0x10000). -/
def hex4 (n : Nat) : List Char :=
  [hexDigitChar (n / 4096 % 16), hexDigitChar (n / 256 % 16),
   hexDigitChar (n / 16 % 16), hexDigitChar (n % 16)]

/-- The per-character escaping table of `write_escaped_string`. -/
def escapeChar (c : Char) : List Char :=
  if c = '"' then ['\\', '"']
  else if c = '\\' then ['\\', '\\']
  else if c = '\n' then ['\\', 'n']
  else if c = '\r' then ['\\', 'r']
  else if c = '\t' then ['\\', 't']
  else if isCcControl c then '\\' :: 'u' :: hex4 c.toNat
  else [c]

/-- Rust `write_escaped_string`: quote, escape each character, quote. -/
def escapeString (cs : List Char) : List Char :=
  '"' :: cs.flatMap escapeChar ++ ['"']

/-- The comma-separation loop of `write_canonical` (`first` flag). -/
def joinSep (sep : List Char) : List (List Char) → List Char
  | [] => []
  | [x] => x
  | x :: xs => x ++ sep ++ joinSep sep xs

/-- Lexicographic comparison of character lists by Unicode scalar
value: this is Rust's byte-wise `Ord` on `String` (UTF-8 preserves
scalar order). -/
def charListLe : List Char → List Char → Bool
  | [], _ => true
  | _ :: _, [] => false
  | a :: as', b :: bs' =>
    if a = b then charListLe as' bs' else decide (a.toNat < b.toNat)

/-- Object entries ordered by their raw key strings (`keys.sort()`). -/
def entryLe (a b : String × List Char) : Prop :=
  charListLe a.1.data b.1.data = true

instance : DecidableRel entryLe :=
  fun a b => inferInstanceAs (Decidable (charListLe a.1.data b.1.data = true))

/-- One serialized object entry: `key:value` with the key escaped by
the same table (keys are not newline-normalized). -/
def entryChars (e : String × List Char) : List Char :=
  escapeString e.1.data ++ ':' :: e.2

mutual
/-- The character stream written by `write_canonical`. `canonicalize`
writes bytes; every individual write is either an ASCII literal or
`char::encode_utf8`, so the byte output is exactly the UTF-8 encoding
of this stream (see `write_canonical` below).

In the object case Rust sorts the raw keys (`keys.sort()`) and then
emits `obj.get(key)` for each; here the entries themselves are sorted
by key after serializing the values. The two agree whenever keys are
unique, which `serde_json::Map` (a `BTreeMap`) guarantees. -/
def canonChars : Json → List Char
  | .null => "null".data
  | .bool b => if b then "true".data else "false".data
  | .num n => n.render.data
  | .str s => escapeString (normalizeNewlines s.data)
  | .arr xs => '[' :: joinSep [','] (canonList xs) ++ [']']
  | .obj kvs =>
    '\x7b' :: joinSep [','] (((canonEntries kvs).insertionSort entryLe).map entryChars)
      ++ ['\x7d']

/-- Canonical character streams of the elements of an array. -/
def canonList : List Json → List (List Char)
  | [] => []
  | x :: xs => canonChars x :: canonList xs

/-- Object entries with canonicalized values (keys untouched). -/
def canonEntries : List (String × Json) → List (String × List Char)
  | [] => []
  | (k, v) :: kvs => (k, canonChars v) :: canonEntries kvs
end

/-- The byte vector produced by `write_canonical` into the in-memory
`Vec<u8>` (every `write_all`/`write!` on a `Vec` is infallible): each
write is an ASCII byte literal (`b"null"`, `b"["`, `b"\\n"`, ...) or
`char::encode_utf8` of one character, so the vector is the UTF-8
encoding of the canonical character stream. -/
def write_canonical (v : Json) : List Nat :=
  (canonChars v).flatMap utf8Encode

/-- Is `b` a UTF-8 continuation byte? -/
def isUtf8Cont (b : Nat) : Bool :=
  decide (0x80 ≤ b) && decide (b < 0xc0)

/-- Decode one UTF-8 scalar value from a lead byte and the remaining
bytes (strict: rejects bad leads, truncated sequences, overlong forms,
surrogates and values above U+10FFFF), returning the character and the
bytes that follow it. -/
def utf8DecodeOne (b1 : Nat) (rest : List Nat) : Option (Char × List Nat) :=
  if b1 < 0x80 then some (Char.ofNat b1, rest)
  else if b1 < 0xe0 then
    match rest with
    | b2 :: rest2 =>
      if 0xc2 ≤ b1 ∧ isUtf8Cont b2 then
        some (Char.ofNat ((b1 - 0xc0) * 0x40 + (b2 - 0x80)), rest2)
      else none
    | [] => none
  else if b1 < 0xf0 then
    match rest with
    | b2 :: b3 :: rest3 =>
      let v := (b1 - 0xe0) * 0x1000 + (b2 - 0x80) * 0x40 + (b3 - 0x80)
      if isUtf8Cont b2 ∧ isUtf8Cont b3 ∧ 0x800 ≤ v ∧ ¬(0xd800 ≤ v ∧ v < 0xe000) then
        some (Char.ofNat v, rest3)
      else none
    | _ => none
  else if b1 < 0xf8 then
    match rest with
    | b2 :: b3 :: b4 :: rest4 =>
      let v := (b1 - 0xf0) * 0x40000 + (b2 - 0x80) * 0x1000 +
        (b3 - 0x80) * 0x40 + (b4 - 0x80)
      if isUtf8Cont b2 ∧ isUtf8Cont b3 ∧ isUtf8Cont b4 ∧ 0x10000 ≤ v ∧ v < 0x110000 then
        some (Char.ofNat v, rest4)
      else none
    | _ => none
  else none

/-- Decode a whole byte list, one character per fuel unit (each
character consumes at least one byte, so byte-count fuel always
suffices; the fuel only makes the recursion structural). -/
def utf8DecodeList : Nat → List Nat → Option (List Char)
  | _, [] => some []
  | 0, _ :: _ => none
  | fuel + 1, b1 :: rest =>
    match utf8DecodeOne b1 rest with
    | some (c, rest2) => (utf8DecodeList fuel rest2).map (fun cs => c :: cs)
    | none => none

/-- Strict UTF-8 decoding (`String::from_utf8` validity). -/
def utf8DecodeChars (l : List Nat) : Option (List Char) :=
  utf8DecodeList l.length l

/-- Rust `canonicalize` (canonicalization.rs): write the canonical bytes,
then convert with `String::from_utf8`, surfacing a conversion failure
as `CanonicalizationError`. -/
def canonicalize (v : Json) : Except PolicyError String :=
  match utf8DecodeChars (write_canonical v) with
  | some cs => .ok (String.mk cs)
  | none => .error (.CanonicalizationError "invalid utf-8 sequence")

/-- Rust `canonical_hash` (canonicalization.rs). -/
def canonical_hash (v : Json) : Except PolicyError String := do
  let c ← canonicalize v
  pure (sha256_str c)

/-- Rust `remove_field` (canonicalization.rs). -/
def remove_field (v : Json) (field : String) : Json :=
  match v with
  | .obj kvs => .obj (kvs.filter (fun kv => kv.1 != field))
  | _ => v

/-! ## Concrete fixtures (mirroring the crate's unit tests) -/

/-- A regex engine that rejects every pattern; theorems about paths that
never compile a pattern are independent of the engine, and witnesses may
use any engine. -/
def reNone : RegexEngine := ⟨fun _ => .error "unsupported"⟩

/-- The context of `evaluator.rs`'s `create_test_context`. -/
def ctxWith (role : Role) : EvaluationContext :=
  { identity := ⟨"u:test", "test@example.com", "example.com", ["developers"], false⟩,
    tenant := ⟨"t:example.com", .Customer⟩,
    resource := ⟨.Room, "r:general", none, none⟩,
    action := ⟨.Write, "messenger.send"⟩,
    role := some role }

/-- The policy of `test_basic_evaluation`. -/
def basicPolicy : Policy :=
  { id := "basic-policy", version := "1.0.0", name := "Basic Policy",
    rules := [{ id := "allow-members", effect := .Allow,
                conditions := [⟨"role", .Equals, .str "member"⟩], priority := 10 }],
    default_effect := .Deny }

/-- The policy of `test_deny_overrides`. -/
def denyOverridePolicy : Policy :=
  { id := "deny-override-policy", version := "1.0.0", name := "Deny Override Policy",
    combining_algorithm := .DenyOverrides,
    rules := [{ id := "allow-all", effect := .Allow, conditions := [], priority := 1 },
              { id := "deny-guests", effect := .Deny,
                conditions := [⟨"role", .Equals, .str "guest"⟩], priority := 10 }],
    default_effect := .Deny }

/-- Rust `basicPolicy` under `first_applicable` instead. -/
def firstApplicablePolicy : Policy :=
  { basicPolicy with
    id := "first-applicable-policy",
    combining_algorithm := .FirstApplicable }

/-- A policy with an empty rule list. -/
def emptyRulesPolicy : Policy :=
  { id := "empty-policy", version := "1.0.0", name := "Empty Policy",
    rules := [], default_effect := .Allow }

/-- The `allow-members` rule of `basicPolicy`/`firstApplicablePolicy`. -/
def amRule : Rule :=
  { id := "allow-members", effect := .Allow,
    conditions := [⟨"role", .Equals, .str "member"⟩], priority := 10 }

/-- The decision `basicPolicy` produces for a guest. -/
def dBasicDeny : PolicyDecision :=
  ⟨.Deny, "No matching rules - default deny", none, some "basic-policy", true⟩

/-- The decision `denyOverridePolicy` produces for a guest. -/
def dGuestDeny : PolicyDecision :=
  ⟨.Deny, "Rule 'deny-guests' denies", some "deny-guests",
    some "deny-override-policy", false⟩

/-! ## Theorems -/

theorem char_eq_iff_toNat (a b : Char) : a = b ↔ a.toNat = b.toNat := by
  constructor
  · intro h; rw [h]
  · intro h
    apply Char.ext
    exact UInt32.ext h

theorem charListLe_total (x y : List Char) :
    charListLe x y = true ∨ charListLe y x = true := by
  induction x generalizing y with
  | nil => exact Or.inl rfl
  | cons a as' ih =>
    cases y with
    | nil => exact Or.inr rfl
    | cons b bs' =>
      by_cases hab : a = b
      · subst hab
        simpa [charListLe] using ih bs'
      · have hne : a.toNat ≠ b.toNat := fun h => hab ((char_eq_iff_toNat a b).2 h)
        have hba : b ≠ a := fun h => hab h.symm
        rcases Nat.lt_or_ge a.toNat b.toNat with h | h
        · exact Or.inl (by simp [charListLe, hab, h])
        · exact Or.inr (by simp [charListLe, hba]; omega)

theorem charListLe_trans {x y z : List Char} (h1 : charListLe x y = true)
    (h2 : charListLe y z = true) : charListLe x z = true := by
  induction x generalizing y z with
  | nil => rfl
  | cons a as' ih =>
    cases y with
    | nil => simp [charListLe] at h1
    | cons b bs' =>
      cases z with
      | nil => simp [charListLe] at h2
      | cons c cs' =>
        by_cases hab : a = b <;> by_cases hbc : b = c
        · subst hab; subst hbc
          simp only [charListLe, if_pos rfl] at h1 h2 ⊢
          exact ih h1 h2
        · subst hab
          simp only [charListLe, if_pos rfl] at h1
          simp only [charListLe, if_neg hbc] at h2
          simp [charListLe, hbc, h2]
        · subst hbc
          simp only [charListLe, if_neg hab] at h1
          simp [charListLe, hab, h1]
        · simp only [charListLe, if_neg hab] at h1
          simp only [charListLe, if_neg hbc] at h2
          simp only [decide_eq_true_eq] at h1 h2
          have hac : a.toNat < c.toNat := lt_trans h1 h2
          have : a ≠ c := fun h => by
            rw [(char_eq_iff_toNat a c).1 h] at hac; omega
          simp [charListLe, this, hac]

theorem charListLe_antisymm {x y : List Char} (h1 : charListLe x y = true)
    (h2 : charListLe y x = true) : x = y := by
  induction x generalizing y with
  | nil =>
    cases y with
    | nil => rfl
    | cons b bs' => simp [charListLe] at h2
  | cons a as' ih =>
    cases y with
    | nil => simp [charListLe] at h1
    | cons b bs' =>
      by_cases hab : a = b
      · subst hab
        simp only [charListLe, if_pos rfl] at h1 h2
        rw [ih h1 h2]
      · have hba : b ≠ a := fun h => hab h.symm
        simp only [charListLe, if_neg hab, decide_eq_true_eq] at h1
        simp only [charListLe, if_neg hba, decide_eq_true_eq] at h2
        omega

instance : IsTotal (String × List Char) entryLe :=
  ⟨fun a b => charListLe_total a.1.data b.1.data⟩

instance : IsTrans (String × List Char) entryLe :=
  ⟨fun _ _ _ h1 h2 => charListLe_trans h1 h2⟩

/-- Claim C4: For every condition and context: `Exists` evaluates to true
iff the field path resolves to a present value, `NotExists` is its exact
complement, and for every other operator an absent field value makes
condition evaluation fail with `ConditionError("Field '<path>' not
found")` rather than return a boolean. -/
theorem condition_existence_semantics (re : RegexEngine) (c : Condition)
    (ctx : EvaluationContext) :
    (c.operator = .Exists →
      evaluate_condition re c ctx = .ok (ctx.get_value c.field).isSome)
    ∧ (c.operator = .NotExists →
      evaluate_condition re c ctx = .ok (ctx.get_value c.field).isNone)
    ∧ (c.operator ≠ .Exists → c.operator ≠ .NotExists →
      ctx.get_value c.field = none →
      evaluate_condition re c ctx =
        .error (.ConditionError ("Field '" ++ c.field ++ "' not found"))) := by
  refine ⟨fun h => ?_, fun h => ?_, fun h1 h2 h3 => ?_⟩
  · simp [evaluate_condition, h]
  · simp [evaluate_condition, h]
  · cases hop : c.operator <;> simp_all [evaluate_condition]

/-- Witness for C4 at a concrete input: an `Equals` condition over an
unresolvable path yields the `ConditionError`. -/
theorem condition_existence_semantics_witness :
    evaluate_condition reNone ⟨"bogus", .Equals, .null⟩ (ctxWith .Member) =
      .error (.ConditionError ("Field '" ++ "bogus" ++ "' not found")) :=
  (condition_existence_semantics reNone ⟨"bogus", .Equals, .null⟩ (ctxWith .Member)).2.2
    (by decide) (by decide) rfl

/-- Claim C9: For the `Matches` operator, if either the resolved field
value or the condition's literal is not a string, the operator evaluates
to `false` with no error — the pattern is never compiled (the result is
independent of the regex engine) — so an invalid regex pattern can raise
`ConditionError` only when both sides are strings. -/
theorem matches_requires_strings (re : RegexEngine) (l r : Json) :
    (l.as_str = none ∨ r.as_str = none →
      evaluate_operator re .Matches l r = .ok false)
    ∧ (∀ e, evaluate_operator re .Matches l r = .error e →
      l.as_str.isSome = true ∧ r.as_str.isSome = true ∧
      ∃ msg, re.compile (r.as_str.getD "") = .error msg ∧
        e = .ConditionError ("Invalid regex: " ++ msg)) := by
  constructor
  · intro h
    cases hl : l.as_str with
    | none => simp [evaluate_operator, hl]
    | some ls =>
      cases hr : r.as_str with
      | none => simp [evaluate_operator, hl, hr]
      | some rs => simp_all
  · intro e he
    cases hl : l.as_str with
    | none => simp [evaluate_operator, hl] at he
    | some ls =>
      cases hr : r.as_str with
      | none => simp [evaluate_operator, hl, hr] at he
      | some rs =>
        simp only [evaluate_operator, hl, hr] at he
        cases hc : re.compile rs with
        | ok m => simp [hc] at he
        | error msg =>
          simp only [hc] at he
          exact ⟨by simp [hl], by simp [hr], msg, by simp [hr, hc],
            by cases he; rfl⟩

/-- Witness for C9 at a concrete input: a non-string left value with an
invalid pattern still yields `Ok(false)` under an engine that rejects
every pattern. -/
theorem matches_requires_strings_witness :
    evaluate_operator reNone .Matches (.num (.int 1)) (.str "(") = .ok false :=
  (matches_requires_strings reNone (.num (.int 1)) (.str "(")).1 (Or.inl rfl)

/-- Claim C3: For every policy and every context, if no rule of the
policy matches (in particular whenever the rule list is empty), the
per-policy decision equals the policy's `default_effect`, has
`is_default = true`, reason `"No matching rules - default allow"` or
`"... - default deny"` accordingly, and carries the policy's id. -/
theorem policy_default_effect (re : RegexEngine) (p : Policy)
    (ctx : EvaluationContext) :
    (p.rules = [] → matchedRules re ctx p.sorted_rules = .ok [])
    ∧ (matchedRules re ctx p.sorted_rules = .ok [] →
      evaluate_policy re p ctx = .ok
        { decision := Decision.ofEffect p.default_effect,
          reason := if p.default_effect = Effect.Allow
            then "No matching rules - default allow"
            else "No matching rules - default deny",
          rule_id := none, policy_id := some p.id, is_default := true }) := by
  constructor
  · intro h
    simp [Policy.sorted_rules, h, List.insertionSort, matchedRules]
  · intro h
    cases hd : p.default_effect <;>
      simp [evaluate_policy, h, hd, Decision.ofEffect, PolicyDecision.default_allow,
        PolicyDecision.default_deny, PolicyDecision.with_policy_id,
        Bind.bind, Except.bind, pure, Except.pure]

/-- Witness for C3 at a concrete input: the empty-rules policy yields
its default effect (`allow`) as an `is_default` decision carrying the
policy id. -/
theorem policy_default_effect_witness :
    evaluate_policy reNone emptyRulesPolicy (ctxWith .Member) = .ok
      { decision := Decision.ofEffect emptyRulesPolicy.default_effect,
        reason := if emptyRulesPolicy.default_effect = Effect.Allow
          then "No matching rules - default allow"
          else "No matching rules - default deny",
        rule_id := none, policy_id := some emptyRulesPolicy.id, is_default := true } :=
  (policy_default_effect reNone emptyRulesPolicy (ctxWith .Member)).2
    ((policy_default_effect reNone emptyRulesPolicy (ctxWith .Member)).1 rfl)

/-- Claim C1: Cross-policy combining is fixed to deny-overrides: with no
policies, `evaluate` returns the default-deny decision (which has
`is_default = true`); with a non-empty policy set whose per-policy
decisions are `decs` (in insertion order), `evaluate` returns
`combine_decisions decs DenyOverrides`, which is the first deny of
`decs` when one exists and otherwise the first allow. -/
theorem evaluate_cross_policy_deny_overrides (re : RegexEngine)
    (ev : PolicyEvaluator) (ctx : EvaluationContext)
    (hval : ctx.validate = .ok ()) :
    (ev.policies = [] →
      ev.evaluate re ctx = .ok PolicyDecision.default_deny
      ∧ PolicyDecision.default_deny.is_default = true)
    ∧ (∀ decs, ev.policies ≠ [] →
      ev.policies.mapM (fun p => evaluate_policy re p ctx) = .ok decs →
      ev.evaluate re ctx = .ok (combine_decisions decs .DenyOverrides)
      ∧ (∀ d, decs.find? (fun x => x.is_denied) = some d →
        combine_decisions decs .DenyOverrides = d)
      ∧ (decs.find? (fun x => x.is_denied) = none →
        ∀ d, decs.find? (fun x => x.is_allowed) = some d →
        combine_decisions decs .DenyOverrides = d)) := by
  constructor
  · intro h
    refine ⟨?_, rfl⟩
    simp [PolicyEvaluator.evaluate, hval, h, Bind.bind, Except.bind, pure, Except.pure]
  · intro decs hne hmap
    have hni : ev.policies.isEmpty = false := by
      cases hevp : ev.policies with
      | nil => exact absurd hevp hne
      | cons p ps => rfl
    refine ⟨?_, fun d hfind => ?_, fun hnone d hfind => ?_⟩
    · simp only [PolicyEvaluator.evaluate, hval, hni, Bind.bind, Except.bind,
        pure, Except.pure, Bool.false_eq_true, if_false]
      rw [hmap]
    · cases decs with
      | nil => simp at hfind
      | cons d0 tl => simp [combine_decisions, hfind]
    · cases decs with
      | nil => simp at hfind
      | cons d0 tl => simp [combine_decisions, hnone, hfind]

/-- Witness for C1 at a concrete input: two policies where the first
yields a (default) deny and the second a rule deny; `evaluate` returns
the first deny in policy insertion order. -/
theorem evaluate_cross_policy_deny_overrides_witness :
    (PolicyEvaluator.mk [basicPolicy, denyOverridePolicy]).evaluate reNone
      (ctxWith .Guest) = .ok dBasicDeny := by
  have h := (evaluate_cross_policy_deny_overrides reNone
    (PolicyEvaluator.mk [basicPolicy, denyOverridePolicy]) (ctxWith .Guest)
    (by rfl)).2 [dBasicDeny, dGuestDeny] (by simp) (by rfl)
  rw [h.1, h.2.1 dBasicDeny (by rfl)]

theorem filter_orderedInsert_pos (k : Int) (x : Rule)
    (hx : (x.priority == k) = true) (l : List Rule) :
    (l.orderedInsert rulePriorityGe x).filter (fun r => r.priority == k)
      = x :: l.filter (fun r => r.priority == k) := by
  induction l with
  | nil => simp [List.orderedInsert, hx]
  | cons y t ih =>
    by_cases hxy : rulePriorityGe x y
    · simp [List.orderedInsert, hxy, hx]
    · have hxlt : x.priority < y.priority := by
        simpa [rulePriorityGe, not_le] using hxy
      have hxk : x.priority = k := by simpa using hx
      have hy : (y.priority == k) = false := by
        rw [beq_eq_false_iff_ne]
        omega
      simp [List.orderedInsert, hxy, hy, ih]

theorem filter_orderedInsert_neg (k : Int) (x : Rule)
    (hx : (x.priority == k) = false) (l : List Rule) :
    (l.orderedInsert rulePriorityGe x).filter (fun r => r.priority == k)
      = l.filter (fun r => r.priority == k) := by
  induction l with
  | nil => simp [List.orderedInsert, hx]
  | cons y t ih =>
    by_cases hxy : rulePriorityGe x y
    · simp [List.orderedInsert, hxy, hx]
    · simp [List.orderedInsert, hxy, List.filter_cons, ih]

theorem insertionSort_stable_filter (k : Int) (l : List Rule) :
    (l.insertionSort rulePriorityGe).filter (fun r => r.priority == k)
      = l.filter (fun r => r.priority == k) := by
  induction l with
  | nil => rfl
  | cons x t ih =>
    simp only [List.insertionSort]
    by_cases hx : (x.priority == k) = true
    · rw [filter_orderedInsert_pos k x hx, ih]
      simp [List.filter_cons, hx]
    · have hx' : (x.priority == k) = false := by simpa using hx
      rw [filter_orderedInsert_neg k x hx', ih]
      simp [List.filter_cons, hx']

/-- Claim C2: For every policy, evaluation considers rules sorted by
priority descending and rules with equal priority retain their input
order (for every priority `k`, the sorted list restricted to priority
`k` is exactly the input list restricted to priority `k`); under the
`first_applicable` combining algorithm, the decision is the effect of
the first matching rule in that order, with reason
`"Rule '<id>' matched"` and `rule_id` set to that rule's id. -/
theorem policy_priority_order_first_applicable (re : RegexEngine) (p : Policy)
    (ctx : EvaluationContext) :
    List.Sorted (fun a b : Rule => b.priority ≤ a.priority) p.sorted_rules
    ∧ (∀ k : Int, p.sorted_rules.filter (fun r => r.priority == k)
        = p.rules.filter (fun r => r.priority == k))
    ∧ (p.combining_algorithm = .FirstApplicable →
      ∀ m0 rest, matchedRules re ctx p.sorted_rules = .ok (m0 :: rest) →
      evaluate_policy re p ctx = .ok
        { decision := Decision.ofEffect m0.effect,
          reason := "Rule '" ++ m0.id ++ "' matched",
          rule_id := some m0.id, policy_id := some p.id, is_default := false }) := by
  refine ⟨List.sorted_insertionSort rulePriorityGe p.rules,
    fun k => insertionSort_stable_filter k p.rules, fun halg m0 rest h => ?_⟩
  cases he : m0.effect <;>
    simp [evaluate_policy, h, halg, he, Bind.bind, Except.bind, pure, Except.pure,
      PolicyDecision.allow, PolicyDecision.deny, PolicyDecision.with_rule_id,
      PolicyDecision.with_policy_id, Decision.ofEffect]

/-- Witness for C2 at a concrete input: under `first_applicable` the
matching `allow-members` rule decides, with the exact reason string and
rule id. -/
theorem policy_priority_order_first_applicable_witness :
    evaluate_policy reNone firstApplicablePolicy (ctxWith .Member) = .ok
      { decision := Decision.ofEffect amRule.effect,
        reason := "Rule '" ++ amRule.id ++ "' matched",
        rule_id := some amRule.id, policy_id := some firstApplicablePolicy.id,
        is_default := false } :=
  (policy_priority_order_first_applicable reNone firstApplicablePolicy
    (ctxWith .Member)).2.2 rfl amRule [] (by rfl)

/-- Claim C5, counterexample: The claim says every field path with three
or more dot-separated segments resolves to `None`, and that any unknown
second segment resolves to `None`; but `identity.user_id.x` (three
segments) resolves to the user id — trailing segments are ignored — and
`role.x` (unknown second segment under `role`) resolves to the role. -/
theorem deep_path_counterexample :
    (splitDot "identity.user_id.x").length = 3
    ∧ (ctxWith .Member).get_value "identity.user_id.x" = some (.str "u:test")
    ∧ (ctxWith .Member).get_value "role.x" = some (.str "member") :=
  ⟨rfl, rfl, rfl⟩

/-- Claim C5, amended: An unknown first segment resolves to `None`; an
unknown second segment under the `identity`, `tenant`, `resource`,
`action` or `environment` scopes resolves to `None`; but segments
beyond those the resolver consumes are ignored rather than forcing
`None`: a 3+-segment path such as `identity.user_id.x` resolves as if
the extra segments were absent, and under `role` every further segment
is ignored. -/
theorem resolver_segment_semantics (ctx : EvaluationContext) :
    (∀ p0 rest, p0 ∉ (["identity", "tenant", "resource", "action", "role",
        "environment", "attributes"] : List String) →
      ctx.resolveParts (p0 :: rest) = none)
    ∧ (∀ s rest, s ∉ (["user_id", "email", "email_domain", "groups",
        "is_service"] : List String) →
      ctx.resolveParts ("identity" :: s :: rest) = none)
    ∧ (∀ s rest, s ∉ (["tenant_id", "tenant_type"] : List String) →
      ctx.resolveParts ("tenant" :: s :: rest) = none)
    ∧ (∀ s rest, s ∉ (["resource_type", "resource_id", "owner_id",
        "agreement_id"] : List String) →
      ctx.resolveParts ("resource" :: s :: rest) = none)
    ∧ (∀ s rest, s ∉ (["action_type", "action_name"] : List String) →
      ctx.resolveParts ("action" :: s :: rest) = none)
    ∧ (∀ s rest, s ∉ (["timestamp", "request_id", "ip_address", "user_agent",
        "attributes"] : List String) →
      ctx.resolveParts ("environment" :: s :: rest) = none)
    ∧ (∀ rest, ctx.resolveParts ("identity" :: "user_id" :: rest)
        = some (.str ctx.identity.user_id))
    ∧ (∀ rest, ctx.resolveParts ("role" :: rest)
        = ctx.role.map (fun r => .str r.as_str)) := by
  refine ⟨fun p0 rest h => ?_, fun s rest h => ?_, fun s rest h => ?_,
    fun s rest h => ?_, fun s rest h => ?_, fun s rest h => ?_,
    fun rest => ?_, fun rest => ?_⟩
  · obtain ⟨h1, h2, h3, h4, h5, h6, h7⟩ :
        p0 ≠ "identity" ∧ p0 ≠ "tenant" ∧ p0 ≠ "resource" ∧ p0 ≠ "action" ∧
        p0 ≠ "role" ∧ p0 ≠ "environment" ∧ p0 ≠ "attributes" := by
      simpa using h
    simp [EvaluationContext.resolveParts, h1, h2, h3, h4, h5, h6, h7]
  · obtain ⟨h1, h2, h3, h4, h5⟩ :
        s ≠ "user_id" ∧ s ≠ "email" ∧ s ≠ "email_domain" ∧ s ≠ "groups" ∧
        s ≠ "is_service" := by simpa using h
    simp [EvaluationContext.resolveParts, EvaluationContext.get_identity_field,
      h1, h2, h3, h4, h5]
  · obtain ⟨h1, h2⟩ : s ≠ "tenant_id" ∧ s ≠ "tenant_type" := by simpa using h
    simp [EvaluationContext.resolveParts, EvaluationContext.get_tenant_field, h1, h2]
  · obtain ⟨h1, h2, h3, h4⟩ :
        s ≠ "resource_type" ∧ s ≠ "resource_id" ∧ s ≠ "owner_id" ∧
        s ≠ "agreement_id" := by simpa using h
    simp [EvaluationContext.resolveParts, EvaluationContext.get_resource_field,
      h1, h2, h3, h4]
  · obtain ⟨h1, h2⟩ : s ≠ "action_type" ∧ s ≠ "action_name" := by simpa using h
    simp [EvaluationContext.resolveParts, EvaluationContext.get_action_field, h1, h2]
  · obtain ⟨h1, h2, h3, h4, h5⟩ :
        s ≠ "timestamp" ∧ s ≠ "request_id" ∧ s ≠ "ip_address" ∧
        s ≠ "user_agent" ∧ s ≠ "attributes" := by simpa using h
    simp [EvaluationContext.resolveParts, EvaluationContext.get_environment_field,
      h1, h2, h3, h4, h5]
  · simp [EvaluationContext.resolveParts, EvaluationContext.get_identity_field]
  · simp [EvaluationContext.resolveParts]

/-- Witness for the amended C5 at concrete inputs: an unknown first
segment and an unknown second segment both resolve to `None`. -/
theorem resolver_segment_semantics_witness :
    (ctxWith .Member).resolveParts ["zzz"] = none
    ∧ (ctxWith .Member).resolveParts ["identity", "zzz", "x"] = none :=
  ⟨(resolver_segment_semantics (ctxWith .Member)).1 "zzz" [] (by decide),
   (resolver_segment_semantics (ctxWith .Member)).2.1 "zzz" ["x"] (by decide)⟩

theorem replaceCr_no_cr (l : List Char) : '\r' ∉ replaceCr l := by
  intro hmem
  rw [replaceCr, List.mem_map] at hmem
  obtain ⟨c, _, hc⟩ := hmem
  by_cases h : c = '\r' <;> simp [h] at hc

theorem replaceCrLf_of_no_cr {l : List Char} (h : '\r' ∉ l) :
    replaceCrLf l = l := by
  induction l using replaceCrLf.induct with
  | case1 => rfl
  | case2 c => rfl
  | case3 c1 c2 rest hcond ih =>
    exact absurd (hcond.1 ▸ List.mem_cons_self c1 (c2 :: rest)) h
  | case4 c1 c2 rest hcond ih =>
    rw [replaceCrLf, if_neg hcond, ih (fun hm => h (List.mem_cons_of_mem _ hm))]

theorem replaceCr_of_no_cr (l : List Char) (h : '\r' ∉ l) :
    replaceCr l = l := by
  induction l with
  | nil => rfl
  | cons c t ih =>
    have hc : c ≠ '\r' := by rintro rfl; exact h (List.mem_cons_self _ _)
    have ht : '\r' ∉ t := fun hm => h (List.mem_cons_of_mem _ hm)
    simp only [replaceCr, List.map_cons] at ih ⊢
    rw [if_neg hc, ih ht]

theorem hexDigitChar_lower (d : Nat) (h : d < 16) :
    isLowerHexChar (hexDigitChar d) = true := by
  interval_cases d <;> decide

theorem hex4_all_lower (n : Nat) : (hex4 n).all isLowerHexChar = true := by
  simp only [hex4, List.all_cons, List.all_nil, Bool.and_true]
  rw [hexDigitChar_lower _ (Nat.mod_lt _ (by omega)),
    hexDigitChar_lower _ (Nat.mod_lt _ (by omega)),
    hexDigitChar_lower _ (Nat.mod_lt _ (by omega)),
    hexDigitChar_lower _ (Nat.mod_lt _ (by omega))]
  rfl

/-- Claim C7: String canonicalization first rewrites every `CR LF` to
`LF` and every bare `CR` to `LF` (afterwards no `CR` remains and the
normalization is a fixed point), then emits the string in double quotes
escaping `"`, `\`, `LF`, `CR`, `TAB` as two-character escapes, every
other Cc control character as `\u` plus four lowercase hex digits and
every other character as itself; `canonicalize("hello\nworld")` yields
the 14-character quoted form with the two-character escape `\n`. -/
theorem canonical_string_escaping :
    (∀ s : List Char, '\r' ∉ normalizeNewlines s)
    ∧ (∀ s : List Char, normalizeNewlines (normalizeNewlines s) = normalizeNewlines s)
    ∧ (∀ s : String, canonChars (.str s) = escapeString (normalizeNewlines s.data))
    ∧ escapeChar '"' = ['\\', '"']
    ∧ escapeChar '\\' = ['\\', '\\']
    ∧ escapeChar '\n' = ['\\', 'n']
    ∧ escapeChar '\r' = ['\\', 'r']
    ∧ escapeChar '\t' = ['\\', 't']
    ∧ (∀ c : Char, isCcControl c = true →
      c ∉ (['"', '\\', '\n', '\r', '\t'] : List Char) →
      escapeChar c = '\\' :: 'u' :: hex4 c.toNat
      ∧ (hex4 c.toNat).length = 4
      ∧ (hex4 c.toNat).all isLowerHexChar = true)
    ∧ (∀ c : Char, isCcControl c = false →
      c ∉ (['"', '\\', '\n', '\r', '\t'] : List Char) →
      escapeChar c = [c])
    ∧ canonicalize (.str "hello\nworld") = .ok "\"hello\\nworld\""
    ∧ ("\"hello\\nworld\"" : String).length = 14 := by
  refine ⟨fun s => replaceCr_no_cr _, fun s => ?_, fun s => rfl,
    rfl, rfl, rfl, rfl, rfl, fun c h1 h2 => ?_, fun c h1 h2 => ?_, by rfl, rfl⟩
  · have h := replaceCr_no_cr (replaceCrLf s)
    rw [normalizeNewlines, normalizeNewlines, replaceCrLf_of_no_cr h,
      replaceCr_of_no_cr _ h]
  · obtain ⟨e1, e2, e3, e4, e5⟩ :
        c ≠ '"' ∧ c ≠ '\\' ∧ c ≠ '\n' ∧ c ≠ '\r' ∧ c ≠ '\t' := by simpa using h2
    refine ⟨?_, rfl, hex4_all_lower _⟩
    rw [escapeChar, if_neg e1, if_neg e2, if_neg e3, if_neg e4, if_neg e5, if_pos h1]
  · obtain ⟨e1, e2, e3, e4, e5⟩ :
        c ≠ '"' ∧ c ≠ '\\' ∧ c ≠ '\n' ∧ c ≠ '\r' ∧ c ≠ '\t' := by simpa using h2
    rw [escapeChar, if_neg e1, if_neg e2, if_neg e3, if_neg e4, if_neg e5,
      if_neg (by simp [h1])]

/-- Witness for C7 at concrete characters: the Cc control `U+0001` gets
the `\u` escape and the ordinary character `a` passes through. -/
theorem canonical_string_escaping_witness :
    escapeChar '\x01' = '\\' :: 'u' :: hex4 (Char.toNat '\x01')
    ∧ escapeChar 'a' = ['a'] :=
  ⟨(canonical_string_escaping.2.2.2.2.2.2.2.2.1 '\x01' rfl (by decide)).1,
   canonical_string_escaping.2.2.2.2.2.2.2.2.2.1 'a' rfl (by decide)⟩

theorem utf8DecodeOne_one (b1 : Nat) (rest : List Nat) (h : b1 < 0x80) :
    utf8DecodeOne b1 rest = some (Char.ofNat b1, rest) := by
  rw [utf8DecodeOne.eq_def, if_pos h]

theorem utf8DecodeOne_two (b1 b2 : Nat) (rest : List Nat)
    (h1 : ¬ b1 < 0x80) (h2 : b1 < 0xe0) :
    utf8DecodeOne b1 (b2 :: rest)
      = if 0xc2 ≤ b1 ∧ isUtf8Cont b2 then
          some (Char.ofNat ((b1 - 0xc0) * 0x40 + (b2 - 0x80)), rest)
        else none := by
  rw [utf8DecodeOne.eq_def, if_neg h1, if_pos h2]

theorem utf8DecodeOne_three (b1 b2 b3 : Nat) (rest : List Nat)
    (h1 : ¬ b1 < 0x80) (h2 : ¬ b1 < 0xe0) (h3 : b1 < 0xf0) :
    utf8DecodeOne b1 (b2 :: b3 :: rest)
      = if isUtf8Cont b2 ∧ isUtf8Cont b3
          ∧ 0x800 ≤ (b1 - 0xe0) * 0x1000 + (b2 - 0x80) * 0x40 + (b3 - 0x80)
          ∧ ¬(0xd800 ≤ (b1 - 0xe0) * 0x1000 + (b2 - 0x80) * 0x40 + (b3 - 0x80)
              ∧ (b1 - 0xe0) * 0x1000 + (b2 - 0x80) * 0x40 + (b3 - 0x80) < 0xe000) then
          some (Char.ofNat ((b1 - 0xe0) * 0x1000 + (b2 - 0x80) * 0x40 + (b3 - 0x80)), rest)
        else none := by
  rw [utf8DecodeOne.eq_def, if_neg h1, if_neg h2, if_pos h3]

theorem utf8DecodeOne_four (b1 b2 b3 b4 : Nat) (rest : List Nat)
    (h1 : ¬ b1 < 0x80) (h2 : ¬ b1 < 0xe0) (h3 : ¬ b1 < 0xf0) (h4 : b1 < 0xf8) :
    utf8DecodeOne b1 (b2 :: b3 :: b4 :: rest)
      = if isUtf8Cont b2 ∧ isUtf8Cont b3 ∧ isUtf8Cont b4
          ∧ 0x10000 ≤ (b1 - 0xf0) * 0x40000 + (b2 - 0x80) * 0x1000
            + (b3 - 0x80) * 0x40 + (b4 - 0x80)
          ∧ (b1 - 0xf0) * 0x40000 + (b2 - 0x80) * 0x1000
            + (b3 - 0x80) * 0x40 + (b4 - 0x80) < 0x110000 then
          some (Char.ofNat ((b1 - 0xf0) * 0x40000 + (b2 - 0x80) * 0x1000
            + (b3 - 0x80) * 0x40 + (b4 - 0x80)), rest)
        else none := by
  rw [utf8DecodeOne.eq_def, if_neg h1, if_neg h2, if_neg h3, if_pos h4]

theorem isUtf8Cont_of_bounds {b : Nat} (h1 : 0x80 ≤ b) (h2 : b < 0xc0) :
    isUtf8Cont b = true := by
  simp only [isUtf8Cont, Bool.and_eq_true, decide_eq_true_eq]
  exact ⟨h1, h2⟩

theorem utf8DecodeOne_encode (c : Char) (rest : List Nat) :
    ∃ b1 tl, utf8Encode c = b1 :: tl
      ∧ utf8DecodeOne b1 (tl ++ rest) = some (c, rest) := by
  have hv : c.toNat < 0xd800 ∨ (0xe000 ≤ c.toNat ∧ c.toNat < 0x110000) := c.valid
  by_cases h1 : c.toNat < 0x80
  · refine ⟨c.toNat, [], by simp only [utf8Encode]; rw [if_pos h1], ?_⟩
    rw [List.nil_append, utf8DecodeOne_one _ _ h1, Char.ofNat_toNat]
  · by_cases h2 : c.toNat < 0x800
    · refine ⟨0xc0 + c.toNat / 0x40, [0x80 + c.toNat % 0x40],
        by simp only [utf8Encode]; rw [if_neg h1, if_pos h2], ?_⟩
      rw [List.cons_append, List.nil_append,
        utf8DecodeOne_two _ _ _ (by omega) (by omega),
        if_pos ⟨by omega, isUtf8Cont_of_bounds (by omega) (by omega)⟩,
        show (0xc0 + c.toNat / 0x40 - 0xc0) * 0x40 + (0x80 + c.toNat % 0x40 - 0x80)
          = c.toNat by omega,
        Char.ofNat_toNat]
    · by_cases h3 : c.toNat < 0x10000
      · refine ⟨0xe0 + c.toNat / 0x1000,
          [0x80 + c.toNat / 0x40 % 0x40, 0x80 + c.toNat % 0x40],
          by simp only [utf8Encode]; rw [if_neg h1, if_neg h2, if_pos h3], ?_⟩
        rw [List.cons_append, List.cons_append, List.nil_append,
          utf8DecodeOne_three _ _ _ _ (by omega) (by omega) (by omega)]
        rw [show (0xe0 + c.toNat / 0x1000 - 0xe0) * 0x1000
            + (0x80 + c.toNat / 0x40 % 0x40 - 0x80) * 0x40
            + (0x80 + c.toNat % 0x40 - 0x80) = c.toNat by omega]
        rw [if_pos ⟨isUtf8Cont_of_bounds (by omega) (by omega),
          isUtf8Cont_of_bounds (by omega) (by omega), by omega, by omega⟩,
          Char.ofNat_toNat]
      · refine ⟨0xf0 + c.toNat / 0x40000,
          [0x80 + c.toNat / 0x1000 % 0x40, 0x80 + c.toNat / 0x40 % 0x40,
           0x80 + c.toNat % 0x40],
          by simp only [utf8Encode]; rw [if_neg h1, if_neg h2, if_neg h3], ?_⟩
        rw [List.cons_append, List.cons_append, List.cons_append, List.nil_append,
          utf8DecodeOne_four _ _ _ _ _ (by omega) (by omega) (by omega) (by omega)]
        rw [show (0xf0 + c.toNat / 0x40000 - 0xf0) * 0x40000
            + (0x80 + c.toNat / 0x1000 % 0x40 - 0x80) * 0x1000
            + (0x80 + c.toNat / 0x40 % 0x40 - 0x80) * 0x40
            + (0x80 + c.toNat % 0x40 - 0x80) = c.toNat by omega]
        rw [if_pos ⟨isUtf8Cont_of_bounds (by omega) (by omega),
          isUtf8Cont_of_bounds (by omega) (by omega),
          isUtf8Cont_of_bounds (by omega) (by omega), by omega, by omega⟩,
          Char.ofNat_toNat]

theorem utf8Encode_length_pos (c : Char) : 1 ≤ (utf8Encode c).length := by
  simp only [utf8Encode]
  split_ifs <;> simp

theorem length_le_flatMap_utf8 (cs : List Char) :
    cs.length ≤ (cs.flatMap utf8Encode).length := by
  induction cs with
  | nil => simp
  | cons c t ih =>
    simp only [List.flatMap_cons, List.length_append, List.length_cons]
    have := utf8Encode_length_pos c
    omega

theorem utf8DecodeList_encode (cs : List Char) :
    ∀ fuel, cs.length ≤ fuel →
    utf8DecodeList fuel (cs.flatMap utf8Encode) = some cs := by
  induction cs with
  | nil => intro fuel _; cases fuel <;> rfl
  | cons c t ih =>
    intro fuel hf
    obtain ⟨b1, tl, henc, hdec⟩ := utf8DecodeOne_encode c (t.flatMap utf8Encode)
    rw [List.flatMap_cons, henc]
    cases fuel with
    | zero => simp at hf
    | succ f =>
      rw [List.cons_append, utf8DecodeList, hdec]
      have hft : t.length ≤ f := by simp at hf; omega
      show (utf8DecodeList f (t.flatMap utf8Encode)).map (fun cs => c :: cs) = some (c :: t)
      rw [ih f hft]
      rfl

theorem utf8_decode_encode (cs : List Char) :
    utf8DecodeChars (cs.flatMap utf8Encode) = some cs :=
  utf8DecodeList_encode cs (cs.flatMap utf8Encode).length (length_le_flatMap_utf8 cs)

theorem canonicalize_ok (v : Json) :
    canonicalize v = .ok (String.mk (canonChars v)) := by
  rw [canonicalize, write_canonical, utf8_decode_encode]

/-- Claim C10: `canonicalize` returns `Ok` for every JSON value: every
write goes to an in-memory byte vector, the escaping rules emit only
valid UTF-8 (the byte output is the UTF-8 encoding of the canonical
character stream, which the strict decoder accepts), so the
`CanonicalizationError` branch is unreachable. -/
theorem canonicalize_total (v : Json) :
    canonicalize v = .ok (String.mk (canonChars v)) :=
  canonicalize_ok v

theorem string_eq_of_data_eq {s t : String} (h : s.data = t.data) : s = t := by
  cases s
  cases t
  exact congrArg String.mk h

theorem canonEntries_eq_map (kvs : List (String × Json)) :
    canonEntries kvs = kvs.map (fun kv => (kv.1, canonChars kv.2)) := by
  induction kvs with
  | nil => rfl
  | cons kv t ih =>
    cases kv
    simp [canonEntries, ih]

/-- Two key-sorted entry lists that are permutations of each other and
have duplicate-free keys are equal. -/
theorem sorted_nodupkeys_perm_eq :
    ∀ {l1 l2 : List (String × List Char)}, l1.Perm l2 →
    l1.Sorted entryLe → l2.Sorted entryLe → (l1.map Prod.fst).Nodup →
    l1 = l2 := by
  intro l1
  induction l1 with
  | nil =>
    intro l2 hp _ _ _
    exact hp.symm.eq_nil.symm
  | cons a t1 ih =>
    intro l2 hp hs1 hs2 hnd
    cases l2 with
    | nil => exact absurd hp.eq_nil (by simp)
    | cons b t2 =>
      have hab : a = b := by
        by_contra hne
        have ha2 : a ∈ t2 := by
          rcases List.mem_cons.mp (hp.mem_iff.mp (List.mem_cons_self a t1)) with h | h
          · exact absurd h hne
          · exact h
        have hb1 : b ∈ t1 := by
          rcases List.mem_cons.mp (hp.mem_iff.mpr (List.mem_cons_self b t2)) with h | h
          · exact absurd h.symm hne
          · exact h
        have h1 : entryLe a b := List.rel_of_sorted_cons hs1 b hb1
        have h2 : entryLe b a := List.rel_of_sorted_cons hs2 a ha2
        have hkey : a.1 = b.1 := string_eq_of_data_eq (charListLe_antisymm h1 h2)
        have hmem : a.1 ∈ t1.map Prod.fst := by
          exact List.mem_map.mpr ⟨b, hb1, hkey.symm⟩
        exact (List.nodup_cons.mp hnd).1 hmem
      subst hab
      have hp' : t1.Perm t2 := hp.cons_inv
      rw [ih hp' hs1.of_cons hs2.of_cons (List.nodup_cons.mp hnd).2]

theorem canonChars_obj_perm {kvs kvs' : List (String × Json)}
    (hp : kvs.Perm kvs') (hnd : (kvs.map Prod.fst).Nodup) :
    canonChars (.obj kvs) = canonChars (.obj kvs') := by
  have hmap : (canonEntries kvs).Perm (canonEntries kvs') := by
    rw [canonEntries_eq_map, canonEntries_eq_map]
    exact hp.map _
  have hkeys1 : (canonEntries kvs).map Prod.fst = kvs.map Prod.fst := by
    rw [canonEntries_eq_map, List.map_map]
    rfl
  have hndsorted : (((canonEntries kvs).insertionSort entryLe).map Prod.fst).Nodup := by
    have hperm := (List.perm_insertionSort entryLe (canonEntries kvs)).map Prod.fst
    rw [hkeys1] at hperm
    exact hperm.nodup_iff.mpr hnd
  have hsorteq : (canonEntries kvs).insertionSort entryLe
      = (canonEntries kvs').insertionSort entryLe := by
    apply sorted_nodupkeys_perm_eq
    · exact ((List.perm_insertionSort entryLe _).trans hmap).trans
        (List.perm_insertionSort entryLe _).symm
    · exact List.sorted_insertionSort entryLe _
    · exact List.sorted_insertionSort entryLe _
    · exact hndsorted
  have h1 : canonChars (.obj kvs) = '\x7b' ::
      joinSep [','] (((canonEntries kvs).insertionSort entryLe).map entryChars)
      ++ ['\x7d'] := rfl
  have h2 : canonChars (.obj kvs') = '\x7b' ::
      joinSep [','] (((canonEntries kvs').insertionSort entryLe).map entryChars)
      ++ ['\x7d'] := rfl
  rw [h1, h2, hsorteq]

/-- Claim C6: Canonicalization of a JSON object emits its entries ordered
by byte-wise comparison of the raw key strings: for every object and
every permutation of its (duplicate-free) entries the canonical forms
coincide, and `{"b":2,"a":1,"c":3}` canonicalizes to exactly
`{"a":1,"b":2,"c":3}`. -/
theorem canonical_key_order :
    (∀ kvs kvs' : List (String × Json), kvs.Perm kvs' →
      (kvs.map Prod.fst).Nodup →
      canonicalize (.obj kvs) = canonicalize (.obj kvs'))
    ∧ canonicalize (.obj [("b", .num (.int 2)), ("a", .num (.int 1)),
        ("c", .num (.int 3))])
      = .ok "\x7b\"a\":1,\"b\":2,\"c\":3\x7d" := by
  constructor
  · intro kvs kvs' hp hnd
    rw [canonicalize_ok, canonicalize_ok, canonChars_obj_perm hp hnd]
  · rfl

/-- Witness for C6 at a concrete input: swapping the two entries of an
object leaves its canonical form unchanged. -/
theorem canonical_key_order_witness :
    canonicalize (.obj [("b", .num (.int 2)), ("a", .num (.int 1))])
      = canonicalize (.obj [("a", .num (.int 1)), ("b", .num (.int 2))]) :=
  canonical_key_order.1 _ _ (List.Perm.swap _ _ _) (by decide)

theorem length_flatMap_byteHex (bs : List Nat) :
    (bs.flatMap byteHex).length = 2 * bs.length := by
  induction bs with
  | nil => rfl
  | cons b t ih => simp [byteHex, ih]; ring

theorem sha256StateBytes_length (st : Sha256State) :
    (sha256StateBytes st).length = 32 := by
  simp [sha256StateBytes, word32Bytes]

theorem byteHex_all_lower (b : Nat) :
    (byteHex b).all isLowerHexChar = true := by
  simp only [byteHex, List.all_cons, List.all_nil, Bool.and_true]
  rw [hexDigitChar_lower _ (Nat.mod_lt _ (by omega)),
    hexDigitChar_lower _ (Nat.mod_lt _ (by omega))]
  rfl

theorem flatMap_byteHex_all_lower (bs : List Nat) :
    (bs.flatMap byteHex).all isLowerHexChar = true := by
  induction bs with
  | nil => rfl
  | cons b t ih => rw [List.flatMap_cons, List.all_append, byteHex_all_lower b, ih]; rfl

/-- Claim C8: For every `prev_hash` and `cid`, `compute_head_hash`
equals `"h:"` followed by the lowercase-hex SHA-256 of
`prev_hash ++ ":" ++ cid` (the digest renders as 64 lowercase hex
characters), and `verify_chain_link(prev, cid, compute_head_hash(prev,
cid))` returns `true`. -/
theorem head_hash_chain_link :
    (∀ prev cid, compute_head_hash prev cid = "h:" ++ sha256_str (prev ++ ":" ++ cid))
    ∧ (∀ prev cid, verify_chain_link prev cid (compute_head_hash prev cid) = true)
    ∧ (∀ s, (sha256_str s).length = 64)
    ∧ (∀ s, (sha256_str s).data.all isLowerHexChar = true) := by
  refine ⟨fun _ _ => rfl, fun prev cid => ?_, fun s => ?_, fun s => ?_⟩
  · simp [verify_chain_link]
  · show (hexEncode (sha256 (strBytes s))).length = 64
    have h32 : (sha256 (strBytes s)).length = 32 := sha256StateBytes_length _
    have hlen : (hexEncode (sha256 (strBytes s))).length
        = ((sha256 (strBytes s)).flatMap byteHex).length := rfl
    rw [hlen, length_flatMap_byteHex, h32]
  · exact flatMap_byteHex_all_lower _

end PolicyEngine
